import Mathlib

/-!
Verification of the background coordination service of the Huntly browser
extension (`src/app/extension/src/background.ts`): the streaming task
orchestration and cancellation subsystem, the badge/presence cache, and the
AI-toolbar aggregation.  JavaScript `Map`s are embedded as association lists
with unique keys; `AbortController`s are identified by numeric ids, with the
set of ids whose `abort()` has been invoked tracked explicitly.
-/

namespace Huntly

/-- Lookup in an association list, modelling `Map.get`. -/
def mapGet {α β : Type} [DecidableEq α] : List (α × β) → α → Option β
  | [], _ => none
  | (k, v) :: rest, a => if k = a then some v else mapGet rest a

/-- Insert/overwrite in an association list, modelling `Map.set`
(replaces the value in place when the key is present, appends otherwise). -/
def mapSet {α β : Type} [DecidableEq α] : List (α × β) → α → β → List (α × β)
  | [], a, b => [(a, b)]
  | (k, v) :: rest, a, b =>
    if k = a then (a, b) :: rest else (k, v) :: mapSet rest a b

/-- Deletion from an association list, modelling `Map.delete`. -/
def mapDelete {α β : Type} [DecidableEq α] : List (α × β) → α → List (α × β)
  | [], _ => []
  | (k, v) :: rest, a =>
    if k = a then mapDelete rest a else (k, v) :: mapDelete rest a

/-! ## Badge / presence cache (`updateBadgeForTab`, background.ts lines 43-91)

The cache `badgeCache : Map<number, string>` maps a tab id to the URL last
checked for that tab.  The remote lookup `getPageOperateResult(0, url)` and the
subsequent `JSON.parse` are modelled by their observable outcome. -/

/-- Outcome of the remote presence lookup `getPageOperateResult` together with
the parse of its payload: the call (or `JSON.parse`) throws, or the result is
falsy / carries no positive id, or it parses to page data with an `id` field. -/
inductive RemoteOutcome : Type where
  | throws : RemoteOutcome
  | noPage : RemoteOutcome
  | page : Int → RemoteOutcome
deriving DecidableEq, Repr

/-- Observable result of one `updateBadgeForTab` call: the badge cache after
the call, whether the remote lookup was performed, and the badge text set for
the tab (`none` when the call returned without touching the badge). -/
structure BadgeStep : Type where
  cache : List (Nat × String)
  didLookup : Bool
  badge : Option String
deriving DecidableEq, Repr

/-- Embedding of `s.startsWith(p)` over the underlying character lists. -/
def strStartsWith (s p : String) : Bool :=
  p.data.isPrefixOf s.data

/-- The guard `url.startsWith('http://') || url.startsWith('https://')`. -/
def isHttpUrl (url : String) : Bool :=
  strStartsWith url "http://" || strStartsWith url "https://"

/-- Badge text for the saved state (`SAVED_BADGE_TEXT`). -/
def SAVED_BADGE_TEXT : String := "✓"

/-- The function `updateBadgeForTab(tabId, url, forceRefresh)`, embedded over an explicit
cache, the configured base URL (`none` when `getApiBaseUrl()` is falsy), and
the remote lookup outcome.  Mirrors background.ts lines 43-91 branch for
branch. -/
def updateBadgeForTab (cache : List (Nat × String)) (baseUrl : Option String)
    (tabId : Nat) (url : String) (forceRefresh : Bool)
    (remote : RemoteOutcome) : BadgeStep :=
  if url = "" ∨ isHttpUrl url = false then
    ⟨cache, false, some ""⟩
  else
    match baseUrl with
    | none => ⟨cache, false, some ""⟩
    | some _ =>
      if forceRefresh = false ∧ mapGet cache tabId = some url then
        ⟨cache, false, none⟩
      else
        let cache2 := mapSet cache tabId url
        match remote with
        | RemoteOutcome.throws => ⟨cache2, true, some ""⟩
        | RemoteOutcome.noPage => ⟨cache2, true, some ""⟩
        | RemoteOutcome.page id =>
          if 0 < id then ⟨cache2, true, some SAVED_BADGE_TEXT⟩
          else ⟨cache2, true, some ""⟩

/-! ## Direct-provider (Vercel AI SDK) streaming
(`startProcessingWithVercelAI`, background.ts lines 231-361)

The streaming loop is embedded over: the list of chunks the provider produces
before its stream terminates, how the stream terminates (graceful end of
iteration, or `streamText`/the iterator throwing), and the point in time at
which the task's `AbortController` is aborted.  Time is counted in loop
iterations: the abort check for chunk `i` happens at time `i`, and the
post-loop completion/error checks happen at time `chunks.length`.  An abort at
step `k` means the signal reads aborted at every time `t ≥ k` (the signal is
monotone).  The messages sent to the tab are recorded with the time at which
they were sent. -/

/-- A message relayed to the origin tab by the direct-provider backend:
`shortcuts_process_data`, `shortcuts_process_result` or
`shortcuts_process_error`. -/
inductive OutMsg : Type where
  | chunk : String → String → OutMsg
  | result : String → OutMsg
  | error : String → OutMsg
deriving DecidableEq, Repr

/-- How the provider's stream terminates after producing its chunks:
graceful completion, or a throw with the given error message. -/
inductive StreamEnd : Type where
  | success : StreamEnd
  | failure : String → StreamEnd
deriving DecidableEq, Repr

/-- Whether `abortController.signal.aborted` reads true at time `t`, when the
controller is aborted at step `abortStep` (`none`: never aborted). -/
def abortedAt : Option Nat → Nat → Bool
  | none, _ => false
  | some k, t => decide (k ≤ t)

/-- The `for await` loop over `result.textStream` plus the post-loop
completion check and the `catch` block of `startProcessingWithVercelAI`
(background.ts lines 292-360): `t` is the current time, `acc` the
`accumulatedContent` so far. -/
def vercelStreamGo (ending : StreamEnd) (abortStep : Option Nat) :
    List String → Nat → String → List (Nat × OutMsg)
  | [], t, acc =>
    match ending with
    | StreamEnd.success =>
      if abortedAt abortStep t then [] else [(t, OutMsg.result acc)]
    | StreamEnd.failure e =>
      if abortedAt abortStep t then [] else [(t, OutMsg.error e)]
  | c :: rest, t, acc =>
    if abortedAt abortStep t then []
    else (t, OutMsg.chunk c (acc ++ c)) :: vercelStreamGo ending abortStep rest (t + 1) (acc ++ c)

/-- All timestamped messages a direct-provider task sends to its tab, given
the provider's chunks, the way the stream terminates, and the abort step. -/
def vercelStreamRun (chunks : List String) (ending : StreamEnd)
    (abortStep : Option Nat) : List (Nat × OutMsg) :=
  vercelStreamGo ending abortStep chunks 0 ""

/-! ## Prompt construction (background.ts lines 221-228 and 269-278) -/

/-- The helper `prepareMarkdownContent(markdownContent, title)`: prefixes the content
with the title when `title && title.trim()` is truthy, i.e. when the title is
non-empty and contains a non-whitespace character. -/
def prepareMarkdownContent (markdownContent : String) (title : String) : String :=
  if title ≠ "" ∧ title.data.any (fun c => !c.isWhitespace) then
    "# " ++ title ++ "\n\n" ++ markdownContent
  else
    markdownContent

/-- The user prompt sent upstream by `startProcessingWithVercelAI`
(background.ts line 278). -/
def vercelUserPrompt (content : String) (title : String) : String :=
  prepareMarkdownContent content title

/-- The left brace character, written via its code point. -/
def lbrace : Char := Char.ofNat 123

/-- The right brace character, written via its code point. -/
def rbrace : Char := Char.ofNat 125

/-- The placeholder pattern replaced in shortcut instruction text
(the literal regex of background.ts line 275), as a character list. -/
def langPat : List Char := [lbrace, 'l', 'a', 'n', 'g', rbrace]

/-- The placeholder pattern as a string. -/
def langPatStr : String := String.mk langPat

/-- Fuel-indexed scanner behind `replaceAll`; each step consumes at least one
character and one unit of fuel, so any `fuel ≥ l.length` gives the untruncated
scan. -/
def replaceAllFuel (pat repl : List Char) : Nat → List Char → List Char
  | 0, l => l
  | _ + 1, [] => []
  | fuel + 1, c :: rest =>
    if pat ≠ [] ∧ pat.isPrefixOf (c :: rest) then
      repl ++ replaceAllFuel pat repl fuel (rest.drop (pat.length - 1))
    else
      c :: replaceAllFuel pat repl fuel rest

/-- Left-to-right, non-overlapping global replacement of `pat` by `repl`,
the semantics of JavaScript `String.prototype.replace` with a global literal
regex: scan the input; at each position, if `pat` matches, emit `repl` and
skip past the match, otherwise emit the character and advance. -/
def replaceAll (pat repl l : List Char) : List Char :=
  replaceAllFuel pat repl l.length l

/-- Whether `pat` occurs as a contiguous substring of `l`. -/
def containsPat (pat : List Char) : List Char → Bool
  | [] => pat.isEmpty
  | c :: rest => pat.isPrefixOf (c :: rest) || containsPat pat rest

/-- A pattern has no self-overlap when no proper nonempty suffix of it is also
one of its prefixes; `langPat` satisfies this because its first character
occurs nowhere else in it. -/
def noSelfOverlap (pat : List Char) : Prop :=
  ∀ i, i < pat.length → 0 < i → pat.drop i ≠ pat.take (pat.length - i)

/-- Modelled from the spec: `getLanguageNativeName` lives in `storage.ts`,
which is not under `src/`; per the spec it maps the configured target-language
code to its human-readable native name, and the spec's scenario fixes
`"fr" ↦ "Français"`.  Other codes are left unchanged. -/
def getLanguageNativeName (code : String) : String :=
  if code = "fr" then "Français" else code

/-- The system prompt sent upstream by `startProcessingWithVercelAI`
(background.ts lines 269-275): `(shortcutContent || '')` with every
occurrence of the `{lang}` placeholder replaced by the native name of
`promptsSettings.defaultTargetLanguage || 'English'`.  `none` models a falsy
JavaScript value. -/
def buildSystemPrompt (shortcutContent : Option String)
    (defaultTargetLanguage : Option String) : String :=
  let lang := defaultTargetLanguage.getD "English"
  let native := getLanguageNativeName lang
  String.mk (replaceAll langPat native.data (shortcutContent.getD "").data)

/-! ## AI toolbar aggregation (`getAIToolbarData`, background.ts lines 541-623)

Only the model-list part (lines 560-609) is claimed.  The collaborators that
live outside `src/` (`getAIProvidersStorage`, `getAvailableProviderTypes`,
`PROVIDER_REGISTRY`, `getEffectiveDefaultProviderType`) are passed in as
data: the provider-configuration map, the provider-metadata registry, the
iteration order of available provider types, and the provider type marked as
default (`none` models a falsy value). -/

/-- One entry of `PROVIDER_REGISTRY[p].defaultModels`. -/
structure ModelMeta : Type where
  id : String
  name : String
deriving DecidableEq, Repr

/-- Registry entry `PROVIDER_REGISTRY[p]`: display name and model catalog of a provider. -/
structure ProviderMeta : Type where
  displayName : String
  defaultModels : List ModelMeta
deriving DecidableEq, Repr

/-- Configuration `storage.providers[p]`: whether the provider is enabled and which of its
models the user has enabled. -/
structure ProviderConfig : Type where
  enabled : Bool
  enabledModels : List String
deriving DecidableEq, Repr

/-- One entry of the aggregated `modelList`. -/
structure ModelItem : Type where
  id : String
  name : String
  provider : String
  providerName : String
deriving DecidableEq, Repr

/-- The `modelList` entries contributed by one provider type in the loop of
background.ts lines 582-598: `huntly-server` is skipped, disabled providers
and providers with no enabled models contribute nothing, and each enabled
model id becomes an item named after the catalog entry when one exists
(falling back to the raw model id, mirroring `modelMeta?.name || modelId`). -/
def providerModels (providers : List (String × ProviderConfig))
    (registry : List (String × ProviderMeta)) (pt : String) : List ModelItem :=
  if pt = "huntly-server" then []
  else
    match mapGet providers pt with
    | none => []
    | some cfg =>
      if cfg.enabled = true ∧ cfg.enabledModels ≠ [] then
        let meta := (mapGet registry pt).getD ⟨"", []⟩
        cfg.enabledModels.map (fun mid =>
          let nm :=
            match meta.defaultModels.find? (fun m => m.id == mid) with
            | some m => if m.name = "" then mid else m.name
            | none => mid
          ⟨pt ++ ":" ++ mid, nm, pt, meta.displayName⟩)
      else []

/-- The fixed `huntly-server` item pushed first when a base URL is configured
and huntly shortcuts are enabled (background.ts lines 572-579). -/
def huntlyServerItem : ModelItem :=
  ⟨"huntly-server:default", "Huntly AI", "huntly-server", "Huntly"⟩

/-- The aggregated `modelList` (background.ts lines 567-598).
`huntlyAvailable` is `baseUrl && huntlyShortcutsEnabled`. -/
def buildModelList (huntlyAvailable : Bool)
    (availableProviders : List String)
    (providers : List (String × ProviderConfig))
    (registry : List (String × ProviderMeta)) : List ModelItem :=
  (if huntlyAvailable then [huntlyServerItem] else [])
    ++ (availableProviders.map (providerModels providers registry)).flatten

/-- Default model resolution (background.ts lines 600-609):
`modelList.find(m => m.provider === defaultProviderType) || modelList[0]`
when a default provider type is set, `modelList[0]` otherwise, and `null`
when the list is empty. -/
def getDefaultModel (modelList : List ModelItem)
    (defaultProviderType : Option String) : Option ModelItem :=
  if 0 < modelList.length then
    match defaultProviderType with
    | some p =>
      match modelList.find? (fun m => m.provider == p) with
      | some m => some m
      | none => modelList.head?
    | none => modelList.head?
  else none

/-- The spec's words for default model resolution, stated independently of
the source: when the list is non-empty, take the first aggregated model of
the provider marked as default if that provider has at least one surfaced
model, else the first model in aggregation order. -/
def specDefaultModel (modelList : List ModelItem)
    (defaultProviderType : Option String) : Option ModelItem :=
  if modelList.isEmpty then none
  else
    match defaultProviderType with
    | some p =>
      match modelList.filter (fun m => m.provider == p) with
      | m :: _ => some m
      | [] => modelList.head?
    | none => modelList.head?

/-! ## Task registry and origin lifecycle
(background.ts lines 28-29, 93-102, 236-238, 681-691)

`vercelAIAbortControllers : Map<string, AbortController>` is embedded as an
association list from task id to a `VercelEntry`.  Each entry carries the
numeric id of its `AbortController` (controllers are allocated with fresh
ids from `nextCtrl`) and, as ghost data, the origin tab the task streams to
(`task.tabId`) — the source map itself does not index tasks by tab.  The set
of controller ids whose `abort()` has been invoked is tracked in
`abortedCtrls`. -/

/-- A live entry of `vercelAIAbortControllers`: the ghost origin tab and the
id of the task's `AbortController`. -/
structure VercelEntry : Type where
  tabId : Nat
  ctrl : Nat
deriving DecidableEq, Repr

/-- Modelled from the spec: an in-flight task of `sseRequestManager`
(`sseTaskManager.ts`, not under `src/`) — a task id associated with the
origin tab it streams into. -/
structure SseTask : Type where
  taskId : String
  tabId : Nat
deriving DecidableEq, Repr

/-- The mutable state of the background service relevant to task
registration and origin teardown. -/
structure BackgroundState : Type where
  sseTasks : List SseTask
  sseCancelled : List String
  vercel : List (String × VercelEntry)
  abortedCtrls : List Nat
  nextCtrl : Nat
  badgeCache : List (Nat × String)
deriving DecidableEq, Repr

/-- The registration step of `startProcessingWithVercelAI` (background.ts
lines 236-238): create a fresh `AbortController` and `Map.set` it under the
task id. -/
def vercelRegister (s : BackgroundState) (taskId : String) (tabId : Nat) :
    BackgroundState :=
  { s with
    vercel := mapSet s.vercel taskId ⟨tabId, s.nextCtrl⟩
    nextCtrl := s.nextCtrl + 1 }

/-- The function `cancelVercelAITask(taskId)` (background.ts lines 94-102): if a
controller is registered under the task id, invoke `abort()`, delete the
entry and return true; otherwise return false. -/
def cancelVercelAITask (s : BackgroundState) (taskId : String) :
    BackgroundState × Bool :=
  match mapGet s.vercel taskId with
  | some e =>
    ({ s with
        vercel := mapDelete s.vercel taskId
        abortedCtrls := e.ctrl :: s.abortedCtrls }, true)
  | none => (s, false)

/-- Modelled from the spec: `sseRequestManager.cancelTasksByTabId(tabId)`
(`sseTaskManager.ts`, not under `src/`) — per §4.2, it invokes the
cancellation handle of every task associated with the tab, clears the
association set, and returns the number of tasks cancelled. -/
def sseCancelTasksByTabId (s : BackgroundState) (tabId : Nat) :
    BackgroundState × Nat :=
  let toCancel := s.sseTasks.filter (fun t => t.tabId == tabId)
  ({ s with
      sseTasks := s.sseTasks.filter (fun t => t.tabId != tabId)
      sseCancelled := toCancel.map SseTask.taskId ++ s.sseCancelled },
    toCancel.length)

/-- The `chrome.tabs.onRemoved` listener (background.ts lines 681-691):
cancel the tab's tasks through `sseRequestManager.cancelTasksByTabId` and
evict the tab's badge-cache entry.  Returns the cancelled count it logs. -/
def onTabRemoved (s : BackgroundState) (tabId : Nat) : BackgroundState × Nat :=
  let r := sseCancelTasksByTabId s tabId
  ({ r.1 with badgeCache := mapDelete r.1.badgeCache tabId }, r.2)

/-- The direct-provider tasks of a state that stream into the given tab and
whose cancellation handle has not been invoked. -/
def liveVercelTasksOf (s : BackgroundState) (tabId : Nat) :
    List (String × VercelEntry) :=
  s.vercel.filter (fun kv => kv.2.tabId == tabId && !(s.abortedCtrls.contains kv.2.ctrl))

/-! ## Association-list lemmas -/

theorem mapGet_cons_eq {α β : Type} [DecidableEq α]
    (rest : List (α × β)) (a : α) (v : β) :
    mapGet ((a, v) :: rest) a = some v := by
  simp [mapGet]

theorem mapGet_cons_ne {α β : Type} [DecidableEq α]
    (rest : List (α × β)) (k a : α) (v : β) (h : k ≠ a) :
    mapGet ((k, v) :: rest) a = mapGet rest a := by
  simp [mapGet, h]

theorem mapSet_cons_eq {α β : Type} [DecidableEq α]
    (rest : List (α × β)) (a : α) (v b : β) :
    mapSet ((a, v) :: rest) a b = (a, b) :: rest := by
  simp [mapSet]

theorem mapSet_cons_ne {α β : Type} [DecidableEq α]
    (rest : List (α × β)) (k a : α) (v b : β) (h : k ≠ a) :
    mapSet ((k, v) :: rest) a b = (k, v) :: mapSet rest a b := by
  simp [mapSet, h]

theorem mapGet_mapSet_self {α β : Type} [DecidableEq α]
    (l : List (α × β)) (a : α) (b : β) :
    mapGet (mapSet l a b) a = some b := by
  induction l with
  | nil => simp [mapGet, mapSet]
  | cons kv rest ih =>
    obtain ⟨k, v⟩ := kv
    by_cases h : k = a
    · subst h
      rw [mapSet_cons_eq, mapGet_cons_eq]
    · rw [mapSet_cons_ne rest k a v b h, mapGet_cons_ne _ k a v h]
      exact ih

theorem mem_keys_mapSet {α β : Type} [DecidableEq α]
    (l : List (α × β)) (a x : α) (b : β)
    (h : x ∈ (mapSet l a b).map Prod.fst) : x ∈ l.map Prod.fst ∨ x = a := by
  induction l with
  | nil =>
    simp [mapSet] at h
    exact Or.inr h
  | cons kv rest ih =>
    obtain ⟨k, v⟩ := kv
    by_cases hk : k = a
    · subst hk
      rw [mapSet_cons_eq] at h
      simp only [List.map_cons, List.mem_cons] at h
      rcases h with rfl | h
      · exact Or.inr rfl
      · exact Or.inl (by simp [h])
    · rw [mapSet_cons_ne rest k a v b hk] at h
      simp only [List.map_cons, List.mem_cons] at h
      rcases h with rfl | h
      · exact Or.inl (by simp)
      · rcases ih h with h' | h'
        · exact Or.inl (by simp [h'])
        · exact Or.inr h'

theorem nodup_keys_mapSet {α β : Type} [DecidableEq α]
    (l : List (α × β)) (a : α) (b : β)
    (h : (l.map Prod.fst).Nodup) : ((mapSet l a b).map Prod.fst).Nodup := by
  induction l with
  | nil => simp [mapSet]
  | cons kv rest ih =>
    obtain ⟨k, v⟩ := kv
    simp only [List.map_cons, List.nodup_cons] at h
    by_cases hk : k = a
    · subst hk
      rw [mapSet_cons_eq]
      simp only [List.map_cons, List.nodup_cons]
      exact ⟨h.1, h.2⟩
    · rw [mapSet_cons_ne rest k a v b hk]
      simp only [List.map_cons, List.nodup_cons]
      refine ⟨?_, ih h.2⟩
      intro hmem
      rcases mem_keys_mapSet rest a k b hmem with h' | h'
      · exact h.1 h'
      · exact hk h'

theorem mapGet_mem {α β : Type} [DecidableEq α]
    (l : List (α × β)) (a : α) (b : β)
    (h : mapGet l a = some b) : (a, b) ∈ l := by
  induction l with
  | nil => simp [mapGet] at h
  | cons kv rest ih =>
    obtain ⟨k, v⟩ := kv
    by_cases hk : k = a
    · subst hk
      rw [mapGet_cons_eq] at h
      obtain rfl : v = b := Option.some.inj h
      exact List.mem_cons_self _ _
    · rw [mapGet_cons_ne _ k a v hk] at h
      exact List.mem_cons_of_mem _ (ih h)

theorem ctrl_not_mem_mapSet (l : List (String × VercelEntry)) (t : String)
    (e c : VercelEntry)
    (hvals : (l.map (fun kv => kv.2.ctrl)).Nodup)
    (hne : ∀ v ∈ l.map (fun kv => kv.2.ctrl), v ≠ e.ctrl)
    (hlive : mapGet l t = some c) :
    c.ctrl ∉ (mapSet l t e).map (fun kv => kv.2.ctrl) := by
  induction l with
  | nil => simp [mapGet] at hlive
  | cons kv rest ih =>
    obtain ⟨k, v⟩ := kv
    simp only [List.map_cons, List.nodup_cons] at hvals
    by_cases hk : k = t
    · subst hk
      rw [mapGet_cons_eq] at hlive
      have hvc : v = c := Option.some.inj hlive
      rw [mapSet_cons_eq]
      simp only [List.map_cons, List.mem_cons]
      rintro (h' | h')
      · exact hne c.ctrl (by simp [hvc]) h'
      · apply hvals.1
        rw [hvc]
        exact h'
    · rw [mapGet_cons_ne _ k t v hk] at hlive
      rw [mapSet_cons_ne rest k t v e hk]
      simp only [List.map_cons, List.mem_cons]
      have hcm : c.ctrl ∈ rest.map (fun kv => kv.2.ctrl) :=
        List.mem_map.mpr ⟨(t, c), mapGet_mem rest t c hlive, rfl⟩
      rintro (h' | h')
      · exact hvals.1 (h' ▸ hcm)
      · exact ih hvals.2 (fun w hw => hne w (by simp [hw])) hlive h'

/-! ## Badge/presence cache lemmas -/

theorem updateBadge_guard {url : String} (h : isHttpUrl url = true) :
    ¬(url = "" ∨ isHttpUrl url = false) := by
  rintro (rfl | hf)
  · exact absurd h (by decide)
  · rw [h] at hf
    cases hf

theorem updateBadge_hit (cache : List (Nat × String)) (b : String)
    (tabId : Nat) (url : String) (remote : RemoteOutcome)
    (h1 : isHttpUrl url = true) (h2 : mapGet cache tabId = some url) :
    updateBadgeForTab cache (some b) tabId url false remote
      = ⟨cache, false, none⟩ := by
  unfold updateBadgeForTab
  rw [if_neg (updateBadge_guard h1)]
  rw [if_pos ⟨rfl, h2⟩]

theorem updateBadge_miss (cache : List (Nat × String)) (b : String)
    (tabId : Nat) (url : String) (forceRefresh : Bool) (remote : RemoteOutcome)
    (h1 : isHttpUrl url = true)
    (h2 : ¬(forceRefresh = false ∧ mapGet cache tabId = some url)) :
    (updateBadgeForTab cache (some b) tabId url forceRefresh remote).cache
        = mapSet cache tabId url
    ∧ (updateBadgeForTab cache (some b) tabId url forceRefresh remote).didLookup
        = true := by
  unfold updateBadgeForTab
  rw [if_neg (updateBadge_guard h1)]
  rw [if_neg h2]
  cases remote with
  | throws => exact ⟨rfl, rfl⟩
  | noPage => exact ⟨rfl, rfl⟩
  | page id => by_cases hid : 0 < id <;> simp [hid]

/-- Claim C6: presence-cache behaviour of a check for an HTTP(S) resource with
a configured server: with `forceRefresh = false` and the cached resource equal
to the requested one, no remote lookup happens; with the cached resource
different from the requested one, the remote lookup happens even with
`forceRefresh = false`; and with `forceRefresh = true` the remote lookup
always happens. -/
theorem claimC6 (cache : List (Nat × String)) (b : String)
    (tabId : Nat) (url : String) (remote : RemoteOutcome)
    (hurl : isHttpUrl url = true) :
    (mapGet cache tabId = some url →
      (updateBadgeForTab cache (some b) tabId url false remote).didLookup = false)
    ∧ (mapGet cache tabId ≠ some url →
      (updateBadgeForTab cache (some b) tabId url false remote).didLookup = true)
    ∧ (updateBadgeForTab cache (some b) tabId url true remote).didLookup = true := by
  refine ⟨fun h => ?_, fun h => ?_, ?_⟩
  · rw [updateBadge_hit cache b tabId url remote hurl h]
  · exact (updateBadge_miss cache b tabId url false remote hurl
      (fun hc => h hc.2)).2
  · exact (updateBadge_miss cache b tabId url true remote hurl
      (fun hc => by cases hc.1)).2

/-- Witness for C6 at a concrete cache state: tab 1 has `https://a` cached. -/
theorem claimC6_witness :
    ((mapGet [(1, "https://a")] 1 = some "https://a" →
      (updateBadgeForTab [(1, "https://a")] (some "srv") 1 "https://a" false
        RemoteOutcome.throws).didLookup = false)
    ∧ (mapGet [(1, "https://a")] 1 ≠ some "https://b" →
      (updateBadgeForTab [(1, "https://a")] (some "srv") 1 "https://b" false
        RemoteOutcome.throws).didLookup = true)
    ∧ (updateBadgeForTab [(1, "https://a")] (some "srv") 1 "https://b" true
        RemoteOutcome.throws).didLookup = true)
    ∧ mapGet [(1, "https://a")] 1 = some "https://a"
    ∧ mapGet [(1, "https://a")] 1 ≠ some "https://b" :=
  ⟨⟨(claimC6 [(1, "https://a")] "srv" 1 "https://a" RemoteOutcome.throws
      (by decide)).1,
    (claimC6 [(1, "https://a")] "srv" 1 "https://b" RemoteOutcome.throws
      (by decide)).2.1,
    (claimC6 [(1, "https://a")] "srv" 1 "https://b" RemoteOutcome.throws
      (by decide)).2.2⟩,
   by decide, by decide⟩

/-- Claim C9: a presence check for a non-HTTP(S) resource identifier (or an
empty one) short-circuits: no remote lookup is performed and the cache is
neither created nor overwritten for that origin. -/
theorem claimC9 (cache : List (Nat × String)) (baseUrl : Option String)
    (tabId : Nat) (url : String) (forceRefresh : Bool) (remote : RemoteOutcome)
    (h : isHttpUrl url = false) :
    (updateBadgeForTab cache baseUrl tabId url forceRefresh remote).didLookup = false
    ∧ (updateBadgeForTab cache baseUrl tabId url forceRefresh remote).cache = cache := by
  unfold updateBadgeForTab
  rw [if_pos (Or.inr h)]
  exact ⟨rfl, rfl⟩

/-- Witness for C9 on an internal browser page and on an empty identifier. -/
theorem claimC9_witness :
    ((updateBadgeForTab [(2, "https://a")] (some "srv") 2 "chrome://settings" false
        (RemoteOutcome.page 3)).didLookup = false
    ∧ (updateBadgeForTab [(2, "https://a")] (some "srv") 2 "chrome://settings" false
        (RemoteOutcome.page 3)).cache = [(2, "https://a")])
    ∧ ((updateBadgeForTab [(2, "https://a")] (some "srv") 2 "" true
        (RemoteOutcome.page 3)).didLookup = false
    ∧ (updateBadgeForTab [(2, "https://a")] (some "srv") 2 "" true
        (RemoteOutcome.page 3)).cache = [(2, "https://a")]) :=
  ⟨claimC9 [(2, "https://a")] (some "srv") 2 "chrome://settings" false
      (RemoteOutcome.page 3) (by decide),
   claimC9 [(2, "https://a")] (some "srv") 2 "" true
      (RemoteOutcome.page 3) (by decide)⟩

/-- Claim C10 (implicit): in every presence check that reaches the
remote-lookup branch, the cache entry `originId -> resourceId` is recorded
regardless of the lookup's outcome — in particular when the lookup throws —
so a subsequent check for the same origin and resource with
`forceRefresh = false` performs no remote lookup even though the previous
lookup never succeeded. -/
theorem claimC10 (cache : List (Nat × String)) (b : String)
    (tabId : Nat) (url : String) (forceRefresh : Bool)
    (remote remote2 : RemoteOutcome)
    (h1 : isHttpUrl url = true)
    (h2 : forceRefresh = true ∨ mapGet cache tabId ≠ some url) :
    mapGet (updateBadgeForTab cache (some b) tabId url forceRefresh remote).cache
        tabId = some url
    ∧ (updateBadgeForTab
        (updateBadgeForTab cache (some b) tabId url forceRefresh remote).cache
        (some b) tabId url false remote2).didLookup = false := by
  have hmiss : ¬(forceRefresh = false ∧ mapGet cache tabId = some url) := by
    rcases h2 with h | h
    · rintro ⟨hf, _⟩
      rw [h] at hf
      cases hf
    · rintro ⟨_, hc⟩
      exact h hc
  have hc := (updateBadge_miss cache b tabId url forceRefresh remote h1 hmiss).1
  have hget : mapGet (updateBadgeForTab cache (some b) tabId url forceRefresh
      remote).cache tabId = some url := by
    rw [hc]
    exact mapGet_mapSet_self cache tabId url
  refine ⟨hget, ?_⟩
  rw [updateBadge_hit _ b tabId url remote2 h1 hget]

/-- Witness for C10: a first lookup for a fresh URL throws (server offline),
yet the entry is cached and the second check skips the remote lookup. -/
theorem claimC10_witness :
    mapGet (updateBadgeForTab [] (some "srv") 1 "https://a" false
        RemoteOutcome.throws).cache 1 = some "https://a"
    ∧ (updateBadgeForTab
        (updateBadgeForTab [] (some "srv") 1 "https://a" false
          RemoteOutcome.throws).cache
        (some "srv") 1 "https://a" false RemoteOutcome.throws).didLookup = false :=
  claimC10 [] "srv" 1 "https://a" false RemoteOutcome.throws RemoteOutcome.throws
    (by decide) (Or.inr (by decide))

/-! ## Direct-provider streaming lemmas -/

theorem vercelStreamGo_time_lt (ending : StreamEnd) (k : Nat) :
    ∀ (l : List String) (t0 : Nat) (acc : String) (t : Nat) (m : OutMsg),
      (t, m) ∈ vercelStreamGo ending (some k) l t0 acc → t < k := by
  intro l
  induction l with
  | nil =>
    intro t0 acc t m h
    by_cases hk : k ≤ t0
    · cases ending <;> simp [vercelStreamGo, abortedAt, hk] at h
    · cases ending <;> simp [vercelStreamGo, abortedAt, hk] at h <;> omega
  | cons c rest ih =>
    intro t0 acc t m h
    by_cases hk : k ≤ t0
    · simp [vercelStreamGo, abortedAt, hk] at h
    · simp [vercelStreamGo, abortedAt, hk] at h
      rcases h with ⟨rfl, rfl⟩ | h
      · omega
      · exact ih (t0 + 1) (acc ++ c) t m h

/-- Claim C3: for a direct-provider task whose abort signal is set at step
`k`, every message the task relays to its origin — chunk, result or error —
was sent at a time strictly before `k`: a chunk observed after abort is
dropped, and neither the completion nor the error message is sent after
abort. -/
theorem claimC3 (chunks : List String) (ending : StreamEnd) (k t : Nat)
    (m : OutMsg) (h : (t, m) ∈ vercelStreamRun chunks ending (some k)) :
    t < k :=
  vercelStreamGo_time_lt ending k chunks 0 "" t m h

/-- Witness for C3: with abort at step 1, the first chunk (sent at time 0)
was delivered, and indeed 0 < 1. -/
theorem claimC3_witness :
    (0, OutMsg.chunk "a" "a") ∈ vercelStreamRun ["a", "b"] StreamEnd.success (some 1)
    ∧ 0 < 1 :=
  ⟨by decide,
   claimC3 ["a", "b"] StreamEnd.success 1 0 (OutMsg.chunk "a" "a") (by decide)⟩

theorem vercelStreamGo_no_error (err : String) (k : Nat) :
    ∀ (l : List String) (t0 : Nat) (acc : String), k ≤ t0 + l.length →
      ∀ (t : Nat) (e : String),
        (t, OutMsg.error e) ∉ vercelStreamGo (StreamEnd.failure err) (some k) l t0 acc := by
  intro l
  induction l with
  | nil =>
    intro t0 acc hk t e hmem
    simp only [List.length_nil, Nat.add_zero] at hk
    simp [vercelStreamGo, abortedAt, hk] at hmem
  | cons c rest ih =>
    intro t0 acc hk t e hmem
    by_cases h0 : k ≤ t0
    · simp [vercelStreamGo, abortedAt, h0] at hmem
    · simp [vercelStreamGo, abortedAt, h0] at hmem
      refine ih (t0 + 1) (acc ++ c) ?_ t e hmem
      simp only [List.length_cons] at hk
      omega

/-- Claim C4: when a direct-provider task's streaming call terminates by
throwing while the abort signal is already set (the task was cancelled), no
processing-error message is ever emitted to the origin. -/
theorem claimC4 (chunks : List String) (err : String) (k : Nat)
    (h : k ≤ chunks.length) :
    ∀ (t : Nat) (e : String),
      (t, OutMsg.error e) ∉ vercelStreamRun chunks (StreamEnd.failure err) (some k) := by
  intro t e
  exact vercelStreamGo_no_error err k chunks 0 "" (by omega) t e

/-- Witness for C4: a task cancelled before any chunk whose stream then
throws sends no error message. -/
theorem claimC4_witness :
    (0, OutMsg.error "boom") ∉ vercelStreamRun [] (StreamEnd.failure "boom") (some 0) :=
  claimC4 [] "boom" 0 (by decide) 0 "boom"

/-! ## Prompt construction -/

/-- Claim C7: the user prompt of a direct-provider task is the content
prefixed with the item's title as a level-one markdown heading
(`"# " ++ title ++ "\n\n" ++ content`) when a title is present (non-blank),
and the unmodified content when no title is present. -/
theorem claimC7 (content title : String) :
    (title.data.any (fun c => !c.isWhitespace) = true →
      vercelUserPrompt content title = "# " ++ title ++ "\n\n" ++ content)
    ∧ (title = "" → vercelUserPrompt content title = content) := by
  constructor
  · intro h
    have hne : title ≠ "" := by
      intro he
      subst he
      exact absurd h (by decide)
    unfold vercelUserPrompt prepareMarkdownContent
    rw [if_pos ⟨hne, h⟩]
  · intro h
    subst h
    unfold vercelUserPrompt prepareMarkdownContent
    rw [if_neg (fun hc => hc.1 rfl)]

/-- Witness for C7: the spec's scenario, `content = "body"`,
`title = "My Title"`. -/
theorem claimC7_witness :
    vercelUserPrompt "body" "My Title" = "# My Title\n\nbody" :=
  ((claimC7 "body" "My Title").1 (by decide)).trans (by decide)

/-! ## Origin teardown and task-registry registration -/

/-- Claim C1 is refuted by the source: the `chrome.tabs.onRemoved` listener
cancels only `sseRequestManager` tasks, and `vercelAIAbortControllers`
carries no origin information, so direct-provider tasks of the closed tab
are never cancelled.  Concretely, with exactly one live direct-provider task
streaming into tab 5 and no managed-server tasks, closing tab 5 reports 0
cancelled tasks, leaves that task registered and live for the destroyed
origin, and never invokes its abort handle — where the claim requires
exactly 1 task cancelled and no live task of that origin afterwards. -/
theorem claimC1 :
    (onTabRemoved ⟨[], [], [("t1", ⟨5, 0⟩)], [], 1, []⟩ 5).2 = 0
    ∧ liveVercelTasksOf (onTabRemoved ⟨[], [], [("t1", ⟨5, 0⟩)], [], 1, []⟩ 5).1 5
        = [("t1", ⟨5, 0⟩)]
    ∧ (onTabRemoved ⟨[], [], [("t1", ⟨5, 0⟩)], [], 1, []⟩ 5).1.abortedCtrls = [] := by
  decide

/-- Counterexample to claim C2 as stated: with task `"t1"` live under
controller 0, re-registering `"t1"` leaves the registry mapping `"t1"` to the
fresh controller 1 while controller 0 is neither registered anywhere nor
aborted — the first task's cancellation handle is silently discarded. -/
theorem claimC2_cex :
    (vercelRegister ⟨[], [], [("t1", ⟨5, 0⟩)], [], 1, []⟩ "t1" 5).vercel
        = [("t1", ⟨5, 1⟩)]
    ∧ (vercelRegister ⟨[], [], [("t1", ⟨5, 0⟩)], [], 1, []⟩ "t1" 5).abortedCtrls = []
    ∧ (vercelRegister ⟨[], [], [("t1", ⟨5, 0⟩)], [], 1, []⟩ "t1" 5).vercel.all
        (fun kv => kv.2.ctrl ≠ 0) = true := by
  decide

/-- Claim C2, amended: the registry keyed by `taskId` does keep at most one
entry per task id (key uniqueness is preserved by registration), but
registering a second task under a task id that already has a live entry
replaces that entry with a fresh controller, invokes no abort, and removes
the first task's controller from the registry — silently discarding its
cancellation handle. -/
theorem claimC2 (s : BackgroundState) (taskId : String) (tabId : Nat)
    (hkeys : (s.vercel.map Prod.fst).Nodup)
    (hvals : (s.vercel.map (fun kv => kv.2.ctrl)).Nodup)
    (hfresh : ∀ v ∈ s.vercel.map (fun kv => kv.2.ctrl), v < s.nextCtrl) :
    ((vercelRegister s taskId tabId).vercel.map Prod.fst).Nodup
    ∧ (∀ c : VercelEntry, mapGet s.vercel taskId = some c →
        mapGet (vercelRegister s taskId tabId).vercel taskId
            = some ⟨tabId, s.nextCtrl⟩
        ∧ (vercelRegister s taskId tabId).abortedCtrls = s.abortedCtrls
        ∧ c.ctrl ∉ (vercelRegister s taskId tabId).vercel.map
            (fun kv => kv.2.ctrl)) := by
  constructor
  · exact nodup_keys_mapSet s.vercel taskId ⟨tabId, s.nextCtrl⟩ hkeys
  · intro c hc
    refine ⟨mapGet_mapSet_self s.vercel taskId ⟨tabId, s.nextCtrl⟩, rfl, ?_⟩
    exact ctrl_not_mem_mapSet s.vercel taskId ⟨tabId, s.nextCtrl⟩ c hvals
      (fun v hv => Nat.ne_of_lt (hfresh v hv)) hc

/-- Witness for the amended C2 at the concrete counterexample state. -/
theorem claimC2_witness :
    (((vercelRegister ⟨[], [], [("t1", ⟨5, 0⟩)], [], 1, []⟩ "t1" 5).vercel.map
        Prod.fst).Nodup
    ∧ (∀ c : VercelEntry,
        mapGet (⟨[], [], [("t1", ⟨5, 0⟩)], [], 1, []⟩ : BackgroundState).vercel "t1"
            = some c →
        mapGet (vercelRegister ⟨[], [], [("t1", ⟨5, 0⟩)], [], 1, []⟩ "t1" 5).vercel
            "t1" = some ⟨5, 1⟩
        ∧ (vercelRegister ⟨[], [], [("t1", ⟨5, 0⟩)], [], 1, []⟩ "t1" 5).abortedCtrls
            = []
        ∧ c.ctrl ∉ (vercelRegister ⟨[], [], [("t1", ⟨5, 0⟩)], [], 1, []⟩
            "t1" 5).vercel.map (fun kv => kv.2.ctrl))) :=
  claimC2 ⟨[], [], [("t1", ⟨5, 0⟩)], [], 1, []⟩ "t1" 5
    (by decide) (by decide) (by decide)

/-! ## Default model resolution -/

theorem find?_eq_head?_filter {α : Type} (p : α → Bool) (l : List α) :
    l.find? p = (l.filter p).head? := by
  induction l with
  | nil => rfl
  | cons a rest ih =>
    cases h : p a with
    | true => rw [List.find?_cons_of_pos _ h, List.filter_cons_of_pos h]; rfl
    | false =>
      have h' : ¬p a = true := by simp [h]
      rw [List.find?_cons_of_neg _ h', List.filter_cons_of_neg h', ih]

/-- Claim C5: the resolved default model equals the spec's description —
when the aggregated model list is non-empty, it is the first aggregated model
of the provider marked as default if that provider has at least one surfaced
model, else the first model in aggregation order — and in the spec's
scenario (provider `p1` marked default with no surfaced models, provider
`p2` with two), the default is `p2`'s first model. -/
theorem claimC5 :
    (∀ (models : List ModelItem) (dpt : Option String),
        getDefaultModel models dpt = specDefaultModel models dpt)
    ∧ getDefaultModel
        (buildModelList false ["p1", "p2"]
          [("p1", ⟨true, []⟩), ("p2", ⟨true, ["m1", "m2"]⟩)]
          [("p1", ⟨"P1", []⟩), ("p2", ⟨"P2", [⟨"m1", "M1"⟩, ⟨"m2", "M2"⟩]⟩)])
        (some "p1")
        = some ⟨"p2:m1", "M1", "p2", "P2"⟩ := by
  constructor
  · intro models dpt
    cases dpt with
    | none =>
      cases models with
      | nil => rfl
      | cons m rest => simp [getDefaultModel, specDefaultModel]
    | some p =>
      cases models with
      | nil => rfl
      | cons m rest =>
        have hfind := find?_eq_head?_filter
          (fun x : ModelItem => x.provider == p) (m :: rest)
        cases hf : (m :: rest).filter (fun x : ModelItem => x.provider == p) with
        | nil => simp [getDefaultModel, specDefaultModel, hfind, hf]
        | cons y ys => simp [getDefaultModel, specDefaultModel, hfind, hf]
  · decide

/-! ## Global placeholder replacement -/

theorem replaceAllFuel_congr (pat repl : List Char) :
    ∀ f1 : Nat, ∀ f2 l, l.length ≤ f1 → l.length ≤ f2 →
      replaceAllFuel pat repl f1 l = replaceAllFuel pat repl f2 l := by
  intro f1
  induction f1 with
  | zero =>
    intro f2 l h1 h2
    have hl : l = [] := List.eq_nil_of_length_eq_zero (Nat.le_zero.mp h1)
    subst hl
    cases f2 <;> rfl
  | succ n ih =>
    intro f2 l h1 h2
    cases l with
    | nil => cases f2 <;> rfl
    | cons c rest =>
      cases f2 with
      | zero =>
        exfalso
        simp at h2
      | succ m =>
        simp only [replaceAllFuel]
        by_cases hb : pat ≠ [] ∧ pat.isPrefixOf (c :: rest) = true
        · rw [if_pos hb, if_pos hb]
          congr 1
          apply ih
          · have := List.length_drop (pat.length - 1) rest
            simp only [List.length_cons] at h1
            omega
          · have := List.length_drop (pat.length - 1) rest
            simp only [List.length_cons] at h2
            omega
        · rw [if_neg hb, if_neg hb]
          congr 1
          apply ih
          · simp only [List.length_cons] at h1
            omega
          · simp only [List.length_cons] at h2
            omega

theorem replaceAll_cons_pos (pat repl : List Char) (c : Char) (rest : List Char)
    (h : pat ≠ [] ∧ pat.isPrefixOf (c :: rest) = true) :
    replaceAll pat repl (c :: rest)
      = repl ++ replaceAll pat repl (rest.drop (pat.length - 1)) := by
  unfold replaceAll
  simp only [List.length_cons, replaceAllFuel]
  rw [if_pos h]
  congr 1
  apply replaceAllFuel_congr
  · have := List.length_drop (pat.length - 1) rest
    omega
  · exact Nat.le_refl _

theorem replaceAll_cons_neg (pat repl : List Char) (c : Char) (rest : List Char)
    (h : ¬(pat ≠ [] ∧ pat.isPrefixOf (c :: rest) = true)) :
    replaceAll pat repl (c :: rest) = c :: replaceAll pat repl rest := by
  unfold replaceAll
  simp only [List.length_cons, replaceAllFuel]
  rw [if_neg h]

theorem containsPat_cons_false {pat : List Char} {c : Char} {rest : List Char}
    (h : containsPat pat (c :: rest) = false) :
    pat.isPrefixOf (c :: rest) = false ∧ containsPat pat rest = false := by
  simpa [containsPat, Bool.or_eq_false_iff] using h

theorem replaceAll_of_not_contains (pat repl : List Char) :
    ∀ l, containsPat pat l = false → replaceAll pat repl l = l := by
  intro l
  induction l with
  | nil => intro _; rfl
  | cons c rest ih =>
    intro h
    obtain ⟨h1, h2⟩ := containsPat_cons_false h
    rw [replaceAll_cons_neg]
    · rw [ih h2]
    · rintro ⟨_, hp⟩
      rw [h1] at hp
      cases hp

theorem containsPat_of_startsWith {pat a : List Char} (hne : a ≠ [])
    (h : pat <+: a) : containsPat pat a = true := by
  cases a with
  | nil => exact absurd rfl hne
  | cons c rest =>
    have : pat.isPrefixOf (c :: rest) = true := List.isPrefixOf_iff_prefix.mpr h
    simp [containsPat, this]

theorem not_prefix_of_free (pat a b : List Char)
    (hov : noSelfOverlap pat) (hne : a ≠ [])
    (hfree : containsPat pat a = false) :
    pat.isPrefixOf (a ++ pat ++ b) = false := by
  cases hpre : pat.isPrefixOf (a ++ pat ++ b) with
  | false => rfl
  | true =>
    exfalso
    have hp : pat <+: (a ++ pat ++ b) := List.isPrefixOf_iff_prefix.mp hpre
    have heq : pat = List.take pat.length (a ++ pat ++ b) :=
      List.prefix_iff_eq_take.mp hp
    rw [List.append_assoc] at heq
    by_cases hcase : pat.length ≤ a.length
    · rw [List.take_append_eq_append_take] at heq
      rw [Nat.sub_eq_zero_of_le hcase] at heq
      simp only [List.take_zero, List.append_nil] at heq
      have hpa : pat <+: a := heq ▸ List.take_prefix pat.length a
      rw [containsPat_of_startsWith hne hpa] at hfree
      cases hfree
    · push_neg at hcase
      have h0 : 0 < a.length := List.length_pos.mpr hne
      rw [List.take_append_eq_append_take] at heq
      rw [List.take_of_length_le (Nat.le_of_lt hcase)] at heq
      have htake : List.take (pat.length - a.length) (pat ++ b)
          = List.take (pat.length - a.length) pat := by
        rw [List.take_append_eq_append_take]
        rw [Nat.sub_eq_zero_of_le (by omega : pat.length - a.length ≤ pat.length)]
        simp
      rw [htake] at heq
      have hdrop : List.drop a.length pat
          = List.take (pat.length - a.length) pat := by
        conv_lhs => rw [heq]
        rw [List.drop_left]
      exact hov a.length (by omega) h0 hdrop

theorem replaceAll_free_append (pat repl : List Char)
    (hov : noSelfOverlap pat) (hpat : pat ≠ []) :
    ∀ a b, containsPat pat a = false →
      replaceAll pat repl (a ++ pat ++ b) = a ++ repl ++ replaceAll pat repl b := by
  intro a
  induction a with
  | nil =>
    intro b _
    obtain ⟨p, ps, rfl⟩ : ∃ p ps, pat = p :: ps := by
      cases pat with
      | nil => exact absurd rfl hpat
      | cons p ps => exact ⟨p, ps, rfl⟩
    simp only [List.nil_append, List.cons_append]
    rw [replaceAll_cons_pos]
    · simp only [List.length_cons, Nat.add_sub_cancel]
      rw [show List.drop ps.length (ps ++ b) = b from List.drop_left ps b]
    · refine ⟨hpat, ?_⟩
      exact List.isPrefixOf_iff_prefix.mpr (List.prefix_append (p :: ps) b)
  | cons c a' ih =>
    intro b hfree
    obtain ⟨h1, h2⟩ := containsPat_cons_false hfree
    have hl : (c :: a') ++ pat ++ b = c :: (a' ++ pat ++ b) := by simp
    rw [hl]
    rw [replaceAll_cons_neg]
    · rw [ih b h2]
      simp
    · rintro ⟨_, hp⟩
      have hnp := not_prefix_of_free pat (c :: a') b hov (by simp) hfree
      rw [hl] at hnp
      rw [hnp] at hp
      cases hp

theorem replaceAll_intercalate (pat repl : List Char)
    (hov : noSelfOverlap pat) (hpat : pat ≠ []) :
    ∀ segs : List (List Char), segs ≠ [] →
      (∀ s ∈ segs, containsPat pat s = false) →
      replaceAll pat repl (List.intercalate pat segs)
        = List.intercalate repl segs := by
  intro segs
  induction segs with
  | nil => intro h; exact absurd rfl h
  | cons s rest ih =>
    intro _ hfree
    cases rest with
    | nil =>
      have h1 : List.intercalate pat [s] = s := by simp [List.intercalate]
      have h2 : List.intercalate repl [s] = s := by simp [List.intercalate]
      rw [h1, h2]
      exact replaceAll_of_not_contains pat repl s (hfree s (by simp))
    | cons s2 rest2 =>
      have h1 : List.intercalate pat (s :: s2 :: rest2)
          = s ++ pat ++ List.intercalate pat (s2 :: rest2) := by
        simp [List.intercalate, List.intersperse]
      have h2 : List.intercalate repl (s :: s2 :: rest2)
          = s ++ repl ++ List.intercalate repl (s2 :: rest2) := by
        simp [List.intercalate, List.intersperse]
      rw [h1, h2]
      rw [replaceAll_free_append pat repl hov hpat s _ (hfree s (by simp))]
      rw [ih (by simp) (fun x hx => hfree x (by simp [hx]))]

/-- Claim C8: every occurrence of the `lang`-placeholder token in the
instruction (shortcut) text is replaced by the native name of the configured
target language before the instruction is sent upstream.  An instruction
carrying any number of placeholder occurrences is written as the
interleaving of placeholder-free segments with the placeholder; the system
prompt is the same interleaving with the native language name instead. -/
theorem claimC8 (segs : List String) (tl : Option String)
    (hne : segs ≠ [])
    (hfree : ∀ s ∈ segs, containsPat langPat s.data = false) :
    (buildSystemPrompt
        (some (String.mk (List.intercalate langPat (segs.map String.data))))
        tl).data
      = List.intercalate (getLanguageNativeName (tl.getD "English")).data
          (segs.map String.data) := by
  exact replaceAll_intercalate langPat
    (getLanguageNativeName (tl.getD "English")).data
    (by unfold noSelfOverlap; decide) (by decide)
    (segs.map String.data) (by simpa using hne)
    (by
      intro s hs
      obtain ⟨x, hx, rfl⟩ := List.mem_map.mp hs
      exact hfree x hx)

/-- Witness for C8: the spec's scenario — instruction
`"Translate to "` followed by the placeholder, target language `"fr"` —
yields `"Translate to Français"`. -/
theorem claimC8_witness :
    buildSystemPrompt (some ("Translate to " ++ langPatStr)) (some "fr")
      = "Translate to Français" := by
  have h := claimC8 ["Translate to ", ""] (some "fr") (by decide) (by decide)
  have e1 : String.mk (List.intercalate langPat
      ((["Translate to ", ""] : List String).map String.data))
      = "Translate to " ++ langPatStr := by decide
  rw [e1] at h
  have e2 : List.intercalate
      (getLanguageNativeName ((some "fr").getD "English")).data
      ((["Translate to ", ""] : List String).map String.data)
      = ("Translate to Français").data := by decide
  rw [e2] at h
  exact String.ext h

end Huntly
